import Mathlib

/-!
Verification of `log_analyzer` (a batch web-server log statistics tool).

Shallow embedding conventions:
* Python strings are Lean `String`s / `List Char`;
* Python floats are exact rationals (`ℚ`);
* Python exceptions are `Except String` (the string names the exception)
  or `Option` where the source returns `None`;
* Python `dict`s (which preserve insertion order) are association lists.
-/

namespace LogAnalyzer

attribute [local semireducible] Rat.add Rat.mul Rat.inv Rat.sub Rat.ofScientific

deriving instance DecidableEq for Except

/-- Python `s.split(c)` for a one-character separator, on character
lists: split at every occurrence, keep empty pieces, return `[[]]`
for the empty string. -/
def splitOnChar (c : Char) : List Char → List (List Char)
  | [] => [[]]
  | x :: xs =>
    let r := splitOnChar c xs
    if x = c then [] :: r
    else
      match r with
      | h :: t => (x :: h) :: t
      | [] => [[x]]

/-- Python `s.split(c)` on `String`s. -/
def pySplit (s : String) (c : Char) : List String :=
  (splitOnChar c s.data).map fun l => ⟨l⟩

/-- The whitespace characters removed by Python `str.strip()`. -/
def isPySpace (c : Char) : Bool :=
  c == ' ' || c == '\t' || c == '\n' || c == '\r' || c == '\x0b' || c == '\x0c'

/-- Python `s.strip()`: drop leading and trailing whitespace. -/
def pyStrip (s : String) : String :=
  ⟨((s.data.dropWhile isPySpace).reverse.dropWhile isPySpace).reverse⟩

/-- Python `s.find(c)`: index of the first occurrence, or `-1`. -/
def pyFind (s : String) (c : Char) : Int :=
  match s.data.findIdx? (· == c) with
  | none => -1
  | some i => (i : Int)

/-- Python `s.count(c)`. -/
def pyCount (s : String) (c : Char) : Nat :=
  s.data.count c

/-- Python `round(x)` on an exact rational: round half to even. -/
def pyRoundInt (x : ℚ) : ℤ :=
  let f : ℤ := ⌊x⌋
  let frac : ℚ := x - f
  if frac < 1/2 then f
  else if 1/2 < frac then f + 1
  else if f % 2 = 0 then f else f + 1

/-- Python `round(x, 3)` on an exact rational. -/
def round3 (x : ℚ) : ℚ := (pyRoundInt (x * 1000) : ℚ) / 1000

/-- The source's `mediana` (log_analyzer.py lines 194-202): `0` for the
empty list, otherwise the element at index `int(len/2)` of the
ascending-sorted list (`sorted(values)` modelled by insertion sort;
for a total antisymmetric order the sorted permutation is unique). -/
def mediana (values : List ℚ) : ℚ :=
  if values = [] then 0
  else (List.insertionSort (· ≤ ·) values).getD (values.length / 2) 0

/-- Claim C3: for every non-empty list of observed request times of
length n, `mediana` returns the element at index `floor(n/2)` of the
ascending-sorted list (stated against any sorted permutation of the
input); in particular `[0.1,0.2,0.3,0.4]` yields `0.3` and
`[0.1,0.2,0.3]` yields `0.2` (lower median, not the average of the
two middle elements). -/
theorem claim_C3_median :
    (∀ l : List ℚ, l ≠ [] → ∀ s : List ℚ, s.Sorted (· ≤ ·) → s.Perm l →
      mediana l = s.getD (l.length / 2) 0) ∧
    mediana [1/10, 2/10, 3/10, 4/10] = 3/10 ∧
    mediana [1/10, 2/10, 3/10] = 2/10 := by
  refine ⟨?_, by decide, by decide⟩
  intro l hl s hs hp
  have hsort : s = List.insertionSort (· ≤ ·) l :=
    List.eq_of_perm_of_sorted (hp.trans (List.perm_insertionSort _ l).symm) hs
      (List.sorted_insertionSort _ l)
  rw [mediana, if_neg hl, hsort]

/-- Witness for C3 at the concrete input `[3,1,2]` (sorted `[1,2,3]`,
index `3/2 = 1`, value `2`). -/
theorem claim_C3_median_witness : mediana [(3 : ℚ), 1, 2] = 2 := by
  have h := claim_C3_median.1 [(3 : ℚ), 1, 2] (by decide) [1, 2, 3] (by decide) (by decide)
  exact h.trans (by decide)

/-- Claim C10: `mediana` applied to the empty list returns `0` rather
than raising, so a URL entry with no recorded times would be reported
with `time_med = 0`. -/
theorem claim_C10_median_empty : mediana [] = 0 := by decide

/-! ### Insertion-ordered dictionaries (Python `dict`) -/

/-- Python `d.get(k)` / `d[k]`: first (and, for dicts, only) binding. -/
def dictGet {α : Type} (d : List (String × α)) (k : String) : Option α :=
  match d with
  | [] => none
  | (k', v) :: rest => if k' = k then some v else dictGet rest k

/-- Python `d[k] = v`: overwrite in place keeping the key's position, or
append a new key at the end (dicts preserve insertion order). -/
def dictSet {α : Type} (d : List (String × α)) (k : String) (v : α) : List (String × α) :=
  match d with
  | [] => [(k, v)]
  | (k', v') :: rest => if k' = k then (k, v) :: rest else (k', v') :: dictSet rest k v

theorem dictGet_none_iff {α : Type} (d : List (String × α)) (k : String) :
    dictGet d k = none ↔ k ∉ d.map Prod.fst := by
  induction d with
  | nil => simp [dictGet]
  | cons p rest ih =>
    obtain ⟨k', v⟩ := p
    by_cases h : k' = k
    · subst h
      simp [dictGet]
    · have hke : ¬ k = k' := fun he => h he.symm
      simp [dictGet, h, ih, hke]

theorem dictGet_some_mem {α : Type} {d : List (String × α)} {k : String} {v : α}
    (h : dictGet d k = some v) : (k, v) ∈ d := by
  induction d with
  | nil => simp [dictGet] at h
  | cons p rest ih =>
    obtain ⟨k', v'⟩ := p
    by_cases hk : k' = k
    · subst hk
      simp [dictGet] at h
      simp [h]
    · simp [dictGet, hk] at h
      exact List.mem_cons_of_mem _ (ih h)

theorem dictSet_of_none {α : Type} {d : List (String × α)} {k : String} (v : α)
    (h : dictGet d k = none) : dictSet d k v = d ++ [(k, v)] := by
  induction d with
  | nil => simp [dictSet]
  | cons p rest ih =>
    obtain ⟨k', v'⟩ := p
    by_cases hk : k' = k
    · simp [dictGet, hk] at h
    · simp [dictGet, hk] at h
      simp [dictSet, hk, ih h]

theorem dictGet_dictSet_self {α : Type} (d : List (String × α)) (k : String) (v : α) :
    dictGet (dictSet d k v) k = some v := by
  induction d with
  | nil => simp [dictSet, dictGet]
  | cons p rest ih =>
    obtain ⟨k', v'⟩ := p
    by_cases hk : k' = k <;> simp [dictSet, dictGet, hk, ih]

theorem dictGet_dictSet_ne {α : Type} (d : List (String × α)) {k k' : String} (v : α)
    (h : k' ≠ k) : dictGet (dictSet d k v) k' = dictGet d k' := by
  have hke : ¬ k = k' := fun he => h he.symm
  induction d with
  | nil => simp [dictSet, dictGet, hke]
  | cons p rest ih =>
    obtain ⟨k0, v0⟩ := p
    by_cases hk : k0 = k
    · subst hk
      simp [dictSet, dictGet, hke]
    · simp [dictSet, dictGet, hk, ih]

theorem dictSet_decomp {α : Type} {d : List (String × α)} {k : String} {c : α}
    (h : dictGet d k = some c) (v : α) :
    ∃ d1 d2, d = d1 ++ (k, c) :: d2 ∧ (∀ p ∈ d1, p.1 ≠ k) ∧
      dictSet d k v = d1 ++ (k, v) :: d2 := by
  induction d with
  | nil => simp [dictGet] at h
  | cons p rest ih =>
    obtain ⟨k', v'⟩ := p
    by_cases hk : k' = k
    · subst hk
      simp [dictGet] at h
      subst h
      exact ⟨[], rest, by simp [dictSet]⟩
    · simp [dictGet, hk] at h
      obtain ⟨d1, d2, hd, hne, hset⟩ := ih h
      exact ⟨(k', v') :: d1, d2, by simp [hd], by simpa [hk] using hne,
        by simp [dictSet, hk, hset]⟩

/-! ### Config loading (`parse_config`, lines 52-85, and `main`, 300-306) -/

/-- The per-line loop of `parse_config`: `line.split("=")`, `return None`
when a line yields fewer than two pieces, else store
`parts[0].strip() -> parts[1].strip()` (note: `parts[1]`, not the whole
remainder of the line). -/
def parseConfigLoop : List String → List (String × String) → Option (List (String × String))
  | [], acc => some acc
  | line :: rest, acc =>
    let parts := pySplit line '='
    if parts.length < 2 then none
    else parseConfigLoop rest (dictSet acc (pyStrip (parts.getD 0 "")) (pyStrip (parts.getD 1 "")))

/-- `parse_config`: parse the user config lines, then fill keys that are
missing or falsy (empty string) from the defaults. `none` models the
`return None` taken on a malformed line (the missing-file case is
outside the embedding). -/
def parse_config (lines : List String) (dflt : List (String × String)) :
    Option (List (String × String)) :=
  match parseConfigLoop lines [] with
  | none => none
  | some user =>
    some (dflt.foldl
      (fun acc pv => if (dictGet acc pv.1).getD "" = "" then dictSet acc pv.1 pv.2 else acc)
      user)

/-- The config phase of `main` (lines 300-306): when `parse_config`
returns `None`, `sys.exit(message)` terminates the process with exit
code 1; otherwise the run proceeds (`none` here). -/
def configPhaseExitCode (lines : List String) (dflt : List (String × String)) : Option Nat :=
  match parse_config lines dflt with
  | none => some 1
  | some _ => none

theorem parseConfigLoop_none {lines : List String} {line : String}
    (h : line ∈ lines) (hbad : (pySplit line '=').length < 2) :
    ∀ acc, parseConfigLoop lines acc = none := by
  induction lines with
  | nil => simp at h
  | cons l rest ih =>
    intro acc
    rcases List.mem_cons.mp h with rfl | hmem
    · simp [parseConfigLoop, if_pos hbad]
    · by_cases hl : (pySplit l '=').length < 2
      · simp [parseConfigLoop, if_pos hl]
      · simp [parseConfigLoop, if_neg hl]
        exact ih hmem _

theorem splitOnChar_ne_nil (c : Char) (l : List Char) : splitOnChar c l ≠ [] := by
  cases l with
  | nil => simp [splitOnChar]
  | cons x xs =>
    simp only [splitOnChar]
    split
    · simp
    · split <;> simp

theorem splitOnChar_append_cons (c : Char) (a b : List Char) (h : c ∉ a) :
    splitOnChar c (a ++ c :: b) = a :: splitOnChar c b := by
  induction a with
  | nil => simp [splitOnChar]
  | cons x a' ih =>
    have hx : x ≠ c := fun hxc => h (hxc ▸ List.mem_cons_self x a')
    have ha' : c ∉ a' := fun hm => h (List.mem_cons_of_mem _ hm)
    simp only [List.cons_append, splitOnChar, List.append_eq, ih ha', if_neg hx]

/-- Counterexample for claim C7: the config line `A=b=c` is stored with
value `"b"`, not `"b=c"` — the text after the second `=` is lost, so
the value is not kept in full. -/
theorem claim_C7_counterexample :
    parse_config ["A=b=c"] [] = some [("A", "b")] ∧ ("b" : String) ≠ "b=c" := by
  constructor
  · decide
  · decide

/-- Claim C7 as amended: each config line is split on every `=`; the key
is the (stripped) text before the first `=` and the stored value is
only the (stripped) text between the first and second `=` — anything
after a second `=` is discarded.  A line containing no `=` (fewer than
two pieces) makes `parse_config` return `None` and `main` exit with
code 1 (a fatal configuration error). -/
theorem claim_C7_first_eq_separator :
    (∀ (lines : List String) (dflt : List (String × String)) (line : String),
       line ∈ lines → (pySplit line '=').length < 2 →
       parse_config lines dflt = none ∧ configPhaseExitCode lines dflt = some 1) ∧
    (∀ (k v w : List Char) (acc : List (String × String)), '=' ∉ k → '=' ∉ v →
       parseConfigLoop [⟨k ++ '=' :: (v ++ '=' :: w)⟩] acc
         = some (dictSet acc (pyStrip ⟨k⟩) (pyStrip ⟨v⟩))) := by
  constructor
  · intro lines dflt line hmem hbad
    have hnone : parse_config lines dflt = none := by
      simp [parse_config, parseConfigLoop_none hmem hbad []]
    exact ⟨hnone, by simp [configPhaseExitCode, hnone]⟩
  · intro k v w acc hk hv
    have hsplit : splitOnChar '=' (k ++ '=' :: (v ++ '=' :: w))
        = k :: v :: splitOnChar '=' w := by
      rw [splitOnChar_append_cons _ _ _ hk, splitOnChar_append_cons _ _ _ hv]
    simp only [parseConfigLoop, pySplit, hsplit, List.map_cons, List.length_cons]
    rw [if_neg (by omega)]
    simp [parseConfigLoop, List.getD_cons_zero, List.getD_cons_succ]

/-- Witness for C7's amended theorem: a separator-free line is fatal
(exit code 1), and for the concrete line `K=V=W` the stored pair is
`(K, V)`. -/
theorem claim_C7_witness :
    (parse_config ["nofield"] [] = none ∧ configPhaseExitCode ["nofield"] [] = some 1) ∧
    parseConfigLoop [⟨['K'] ++ '=' :: (['V'] ++ '=' :: ['W'])⟩] []
      = some (dictSet [] (pyStrip ⟨['K']⟩) (pyStrip ⟨['V']⟩)) :=
  ⟨claim_C7_first_eq_separator.1 ["nofield"] [] "nofield" (by decide) (by decide),
   claim_C7_first_eq_separator.2 ['K'] ['V'] ['W'] [] (by decide) (by decide)⟩

/-! ### Line tokenizer and record decoder (`log_parser`, lines 145-191) -/

/-- The 13-field record yielded by `log_parser` (the `LogEntry`
namedtuple); every field is the raw string token. -/
structure LogEntryRaw where
  remote_addr : String
  remote_user : String
  http_x_real_ip : String
  time_local : String
  request : String
  status : String
  body_bytes_sent : String
  http_referer : String
  http_user_agent : String
  http_x_forwarded_for : String
  http_X_REQUEST_ID : String
  http_X_RB_USER : String
  request_time : String
deriving DecidableEq

/-- The token-building loop of `log_parser` (lines 160-175): state is
`(remaining parts, log_values, multiword_value)`.  A part with no quote
(or a self-closed one with exactly two quotes) that neither starts with
`[` nor has its first `]` at its last position is appended bare
(stripped) — or to the open accumulator; a part opening `"`/`[` starts
the accumulator; a part with an inner `"` or a `]` closes it (joined by
single spaces).  A part matching no branch is dropped. -/
def tokenizeLoop : List String → List String → List String → List String
  | [], logValues, _ => logValues
  | part :: rest, logValues, multiword =>
    if (pyFind part '"' < 0 ∨ pyCount part '"' = 2)
        ∧ pyFind part '[' ≠ 0
        ∧ pyFind part ']' ≠ (part.length : Int) - 1 then
      if multiword.length > 0 then
        tokenizeLoop rest logValues (multiword ++ [part])
      else
        tokenizeLoop rest (logValues ++ [pyStrip part]) multiword
    else if pyFind part '"' = 0 ∨ pyFind part '[' = 0 then
      tokenizeLoop rest logValues (multiword ++ [part])
    else if pyFind part '"' > 0 ∨ pyFind part ']' > 0 then
      tokenizeLoop rest (logValues ++ [String.intercalate " " (multiword ++ [part])]) []
    else
      tokenizeLoop rest logValues multiword

/-- Per-line tokenization (line 155 + loop): split the raw line on
single spaces, discard empty parts, then run the accumulator loop. -/
def tokenizeLine (line : String) : List String :=
  tokenizeLoop ((pySplit line ' ').filter (fun p => p ≠ "")) [] []

/-- The `yield LogEntry(...)` of `log_parser` (lines 177-191): Python
indexes `log_values[0] .. log_values[12]`, raising an uncaught
`IndexError` when fewer than 13 tokens were produced (extra tokens
beyond the 13th are silently ignored). -/
def decodeLine (line : String) : Except String LogEntryRaw :=
  let vs := tokenizeLine line
  if 13 ≤ vs.length then
    .ok { remote_addr := vs.getD 0 "", remote_user := vs.getD 1 "",
          http_x_real_ip := vs.getD 2 "", time_local := vs.getD 3 "",
          request := vs.getD 4 "", status := vs.getD 5 "",
          body_bytes_sent := vs.getD 6 "", http_referer := vs.getD 7 "",
          http_user_agent := vs.getD 8 "", http_x_forwarded_for := vs.getD 9 "",
          http_X_REQUEST_ID := vs.getD 10 "", http_X_RB_USER := vs.getD 11 "",
          request_time := vs.getD 12 "" }
  else .error "IndexError"

/-- The generator as consumed by `write_report`'s `for` loop: lines are
decoded in order; an exception raised while decoding a line propagates
out of the generator and aborts the whole run (`.error`). -/
def logParseAll : List String → Except String (List LogEntryRaw)
  | [] => .ok []
  | l :: ls =>
    match decodeLine l with
    | .error e => .error e
    | .ok v =>
      match logParseAll ls with
      | .error e => .error e
      | .ok vs => .ok (v :: vs)

theorem decodeLine_error_of_short {line : String}
    (h : (tokenizeLine line).length < 13) : decodeLine line = .error "IndexError" := by
  rw [decodeLine]
  rw [if_neg (by omega)]

/-- Counterexample for claim C2: the line `a b c` tokenizes to 3 tokens
(fewer than 13); decoding raises `IndexError`, which is neither logged
nor skipped — it propagates and the run is aborted. -/
theorem claim_C2_counterexample :
    (tokenizeLine "a b c").length < 13 ∧ logParseAll ["a b c"] = .error "IndexError" := by
  constructor
  · decide
  · decide

/-- Claim C2 as amended: a line tokenizing to fewer than 13 tokens makes
the decoder raise `IndexError`; the exception propagates out of the
generator, so any input containing such a line aborts the whole run
(there is no log-and-skip recovery in `log_parser`). -/
theorem claim_C2_short_line_aborts :
    ∀ (lines : List String) (line : String), line ∈ lines →
      (tokenizeLine line).length < 13 →
      decodeLine line = .error "IndexError" ∧ logParseAll lines = .error "IndexError" := by
  intro lines line hmem hshort
  refine ⟨decodeLine_error_of_short hshort, ?_⟩
  induction lines with
  | nil => simp at hmem
  | cons l ls ih =>
    rcases List.mem_cons.mp hmem with rfl | hmem'
    · simp [logParseAll, decodeLine_error_of_short hshort]
    · rw [logParseAll]
      rcases hdec : decodeLine l with e | v
      · have : e = "IndexError" := by
          rw [decodeLine] at hdec
          by_cases hl : 13 ≤ (tokenizeLine l).length
          · simp [if_pos hl] at hdec
          · simp [if_neg hl] at hdec
            exact hdec.symm
        rw [this]
      · rw [ih hmem']

/-- Witness for C2's amended theorem at the concrete input line `x y`. -/
theorem claim_C2_witness :
    decodeLine "x y" = .error "IndexError" ∧ logParseAll ["x y"] = .error "IndexError" :=
  claim_C2_short_line_aborts ["x y"] "x y" (by decide) (by decide)

/-! ### Aggregation and report table (`write_report`, lines 219-291)

`write_report` consumes decoded records; every use of `request_time`
first converts it with `float(...)`, so at this level the record
carries the converted numeric value as an exact rational. -/

/-- A decoded record as consumed by the aggregation loop. -/
structure LogEntry where
  remote_addr : String
  remote_user : String
  http_x_real_ip : String
  time_local : String
  request : String
  status : String
  body_bytes_sent : String
  http_referer : String
  http_user_agent : String
  http_x_forwarded_for : String
  http_X_REQUEST_ID : String
  http_X_RB_USER : String
  request_time : ℚ
deriving DecidableEq

/-- A record with the given `request` and `request_time` and blank
remaining fields (as in the repository's `test_write_report`). -/
def mkEntry (req : String) (t : ℚ) : LogEntry :=
  { remote_addr := "", remote_user := "", http_x_real_ip := "", time_local := "",
    request := req, status := "200 OK", body_bytes_sent := "100500", http_referer := "",
    http_user_agent := "", http_x_forwarded_for := "", http_X_REQUEST_ID := "",
    http_X_RB_USER := "", request_time := t }

/-- The per-URL accumulator `url_counters[url]` (line 240). -/
structure UrlCounter where
  count : Nat
  time_sum : ℚ
  time_max : ℚ
deriving DecidableEq

/-- The mutable state of the aggregation loop: `total_counters`
(line 228), `url_counters` (229) and `url_req_times` (230). -/
structure AggState where
  total_count : Nat
  total_time_sum : ℚ
  url_counters : List (String × UrlCounter)
  url_req_times : List (String × List ℚ)
deriving DecidableEq

def initState : AggState :=
  { total_count := 0, total_time_sum := 0, url_counters := [], url_req_times := [] }

/-- Lines 239-241: `if not url_counters.get(url)` (the stored inner dict
is always truthy, so this tests key absence) — insert the zeroed
accumulator and the empty times list. -/
def ensureUrl (s : AggState) (url : String) : AggState :=
  if (dictGet s.url_counters url).isNone then
    { s with
      url_counters := dictSet s.url_counters url
        { count := 0, time_sum := 0, time_max := 0 },
      url_req_times := dictSet s.url_req_times url [] }
  else s

/-- Lines 243-248: bump the per-URL counters with one request time
(strictly-greater comparison for the running max). -/
def bumpCounter (c : UrlCounter) (t : ℚ) : UrlCounter :=
  { count := c.count + 1, time_sum := c.time_sum + t,
    time_max := if c.time_max < t then t else c.time_max }

/-- Lines 243-251: update the per-URL structures (`url_counters[url]` /
`url_req_times[url]`, present after `ensureUrl`) and the totals. -/
def updateUrl (s : AggState) (url : String) (t : ℚ) : Except String AggState :=
  match dictGet s.url_counters url, dictGet s.url_req_times url with
  | some c, some ts =>
    .ok { total_count := s.total_count + 1,
          total_time_sum := s.total_time_sum + t,
          url_counters := dictSet s.url_counters url (bumpCounter c t),
          url_req_times := dictSet s.url_req_times url (ts ++ [t]) }
  | _, _ => .error "KeyError"

/-- One iteration of the aggregation loop (lines 234-251):
skip when `len(request) == 3` (string length!); otherwise
`_, url = request.split(" ")[:2]` raises `ValueError` when it yields
fewer than two pieces; else fold the record into the state. -/
def aggStep (s : AggState) (e : LogEntry) : Except String AggState :=
  if e.request.length = 3 then .ok s
  else
    match (pySplit e.request ' ').take 2 with
    | [_, url] => updateUrl (ensureUrl s url) url e.request_time
    | _ => .error "ValueError"

/-- The `for log_line in log_parser` loop (line 234): a raised exception
aborts the loop (and the run). -/
def aggLoop (s : AggState) : List LogEntry → Except String AggState
  | [] => .ok s
  | e :: es =>
    match aggStep s e with
    | .error msg => .error msg
    | .ok s' => aggLoop s' es

/-- Fold a record sequence from the initial state. -/
def aggregate (entries : List LogEntry) : Except String AggState :=
  aggLoop initState entries

/-- Python `max(times)` for a non-empty list (`0` is never used: every
stored times list is non-empty). -/
def pyMax : List ℚ → ℚ
  | [] => 0
  | h :: t => t.foldl max h

/-- One row of `table_data` (lines 258-273). -/
structure ReportRow where
  url : String
  count : Nat
  count_perc : ℚ
  time_avg : ℚ
  time_max : ℚ
  time_med : ℚ
  time_perc : ℚ
  time_sum : ℚ
deriving DecidableEq

/-- One `table_data.append({...})` iteration (lines 258-273).  The dict
literal evaluates in source order, so Python raises `ZeroDivisionError`
at `count_perc` when the global count is 0, at `time_avg` when the
per-URL count is 0, and at `time_perc` when the global `time_sum` is 0
(float division by `0.0` raises in Python); `url_req_times[url]` is read
at `time_med`. -/
def buildRow (s : AggState) (url : String) (c : UrlCounter) : Except String ReportRow :=
  if s.total_count = 0 then .error "ZeroDivisionError"
  else if c.count = 0 then .error "ZeroDivisionError"
  else
    match dictGet s.url_req_times url with
    | none => .error "KeyError"
    | some ts =>
      if s.total_time_sum = 0 then .error "ZeroDivisionError"
      else
        .ok { url := url, count := c.count,
              count_perc := round3 ((c.count : ℚ) / (s.total_count : ℚ) * 100),
              time_avg := round3 (c.time_sum / (c.count : ℚ)),
              time_max := c.time_max,
              time_med := mediana ts,
              time_perc := round3 (c.time_sum / s.total_time_sum * 100),
              time_sum := round3 c.time_sum }

/-- The `for url, counters in url_counters.items()` loop (line 257),
in dict insertion order. -/
def buildRows (s : AggState) : List (String × UrlCounter) → Except String (List ReportRow)
  | [] => .ok []
  | (url, c) :: rest =>
    match buildRow s url c with
    | .error e => .error e
    | .ok row =>
      match buildRows s rest with
      | .error e => .error e
      | .ok rows => .ok (row :: rows)

/-- The full table built by `write_report` from the final state. -/
def buildTable (s : AggState) : Except String (List ReportRow) :=
  buildRows s s.url_counters

/-- `write_report` without the file I/O: aggregate the record sequence,
then build `table_data`.  The `report_size` parameter is accepted by the
source function but never read. -/
def write_report (entries : List LogEntry) (report_size : Nat) :
    Except String (List ReportRow) :=
  match aggregate entries with
  | .error e => .error e
  | .ok s => buildTable s

/-- Counterexample for claim C1: a decoded record whose `request` is the
4-character single token `"ab"` (quotes included, as the tokenizer
produces) splits into 1 whitespace token; the aggregation step does not
skip it — the tuple unpacking raises `ValueError` and the run aborts.
Only requests of string length exactly 3 are skipped. -/
theorem claim_C1_counterexample :
    (pySplit (mkEntry "\"ab\"" 0).request ' ').length < 2 ∧
    (mkEntry "\"ab\"" 0).request.length ≠ 3 ∧
    aggregate [mkEntry "\"ab\"" 0] = .error "ValueError" := by
  refine ⟨by decide, by decide, by decide⟩

/-- Counterexample for claim C5: divisions by zero are not avoided for
every input — for a single attributed record with `request_time = 0`
the global count is 1 but the global `time_sum` is 0, and computing
`time_perc` divides by zero (Python raises `ZeroDivisionError`). -/
theorem claim_C5_counterexample :
    write_report [mkEntry "GET /zero HTTP/1.1" 0] 1000 = .error "ZeroDivisionError" := by
  decide

/-- Claim C6: the end-to-end scenario of the repository's
`test_write_report`: four records with requests `GET /page1 0.1`,
`GET /page1 0.2`, `GET /page2 0.3`, `GET /page3 0.4` and request times
0.1, 0.2, 0.3, 0.4 produce exactly the three claimed rows. -/
theorem claim_C6_end_to_end :
    write_report
      [mkEntry "GET /page1 0.1" (1/10), mkEntry "GET /page1 0.2" (2/10),
       mkEntry "GET /page2 0.3" (3/10), mkEntry "GET /page3 0.4" (4/10)] 100
    = .ok
      [{ url := "/page1", count := 2, count_perc := 50, time_avg := 15/100,
         time_max := 2/10, time_med := 2/10, time_perc := 30, time_sum := 3/10 },
       { url := "/page2", count := 1, count_perc := 25, time_avg := 3/10,
         time_max := 3/10, time_med := 3/10, time_perc := 30, time_sum := 3/10 },
       { url := "/page3", count := 1, count_perc := 25, time_avg := 4/10,
         time_max := 4/10, time_med := 4/10, time_perc := 40, time_sum := 4/10 }] := by
  decide

/-- Counterexample for claim C9: with `report_size = 1`, two attributed
URLs still produce two rows (no truncation), emitted in first-insertion
order with the smaller `time_sum` first (no descending sort). -/
theorem claim_C9_counterexample :
    write_report [mkEntry "GET /a HTTP/1.1" (1/10), mkEntry "GET /b HTTP/1.1" (4/10)] 1
      = .ok
        [{ url := "/a", count := 1, count_perc := 50, time_avg := 1/10,
           time_max := 1/10, time_med := 1/10, time_perc := 20, time_sum := 1/10 },
         { url := "/b", count := 1, count_perc := 50, time_avg := 4/10,
           time_max := 4/10, time_med := 4/10, time_perc := 80, time_sum := 4/10 }] ∧
    (1 : ℚ)/10 < 4/10 ∧ (1 : Nat) < 2 := by
  refine ⟨by decide, by decide, by decide⟩

/-! ### Aggregation-state invariants -/

theorem dictGet_append_left {α : Type} {d : List (String × α)} {k : String} {v : α}
    (h : dictGet d k = some v) (d2 : List (String × α)) :
    dictGet (d ++ d2) k = some v := by
  induction d with
  | nil => simp [dictGet] at h
  | cons p rest ih =>
    obtain ⟨k0, u⟩ := p
    by_cases hk : k0 = k
    · simp_all [dictGet]
    · simp [dictGet, hk] at h ⊢
      exact ih h

theorem dictGet_append_none {α : Type} {d : List (String × α)} {k : String}
    (h : dictGet d k = none) (d2 : List (String × α)) :
    dictGet (d ++ d2) k = dictGet d2 k := by
  induction d with
  | nil => simp
  | cons p rest ih =>
    obtain ⟨k0, u⟩ := p
    by_cases hk : k0 = k
    · simp [dictGet, hk] at h
    · simp [dictGet, hk] at h ⊢
      exact ih h

theorem dictSet_append_self {α : Type} {d : List (String × α)} {k : String}
    (h : dictGet d k = none) (v v' : α) :
    dictSet (d ++ [(k, v)]) k v' = d ++ [(k, v')] := by
  induction d with
  | nil => simp [dictSet]
  | cons p rest ih =>
    obtain ⟨k0, u⟩ := p
    by_cases hk : k0 = k
    · simp [dictGet, hk] at h
    · simp [dictGet, hk] at h
      simp [dictSet, hk, ih h]

theorem dictSet_keys_some {α : Type} {d : List (String × α)} {k : String} {c : α}
    (v : α) (h : dictGet d k = some c) :
    (dictSet d k v).map Prod.fst = d.map Prod.fst := by
  obtain ⟨d1, d2, hd, _, hset⟩ := dictSet_decomp h v
  rw [hset, hd]
  simp

theorem nodup_keys_right {α : Type} (d1 d2 : List (String × α)) (k : String) (c : α)
    (h : ((d1 ++ (k, c) :: d2).map Prod.fst).Nodup) : ∀ p ∈ d2, p.1 ≠ k := by
  intro p hp hpk
  rw [List.map_append, List.map_cons] at h
  have h2 := h.of_append_right
  rw [List.nodup_cons] at h2
  have hmem : p.1 ∈ d2.map Prod.fst := List.mem_map_of_mem _ hp
  rw [hpk] at hmem
  exact h2.1 hmem

theorem pyMax_concat (t : ℚ) {ts : List ℚ} (h : ts ≠ []) :
    pyMax (ts ++ [t]) = max (pyMax ts) t := by
  cases ts with
  | nil => exact absurd rfl h
  | cons a l => simp [pyMax, List.foldl_append]

theorem ite_lt_eq_max {a t : ℚ} : (if a < t then t else a) = max a t := by
  by_cases h : a < t
  · rw [if_pos h, max_eq_right h.le]
  · rw [if_neg h, max_eq_left (not_lt.mp h)]

/-- Per-URL invariant: the stored counter agrees with the stored times
list (whose elements all satisfy `P`; the running max agrees with
`max(times)` whenever the times are non-negative). -/
abbrev UrlInv (P : ℚ → Prop) (times : List (String × List ℚ)) (p : String × UrlCounter) : Prop :=
  ∃ ts, dictGet times p.1 = some ts ∧ ts ≠ [] ∧ p.2.count = ts.length ∧
    p.2.time_sum = ts.sum ∧ (∀ x ∈ ts, P x) ∧
    ((∀ x ∈ ts, 0 ≤ x) → p.2.time_max = pyMax ts)

/-- Invariant of the aggregation state: both dicts share the same
duplicate-free key list, every URL entry satisfies `UrlInv`, and the
totals are the sums of the per-URL counters. -/
abbrev StateInv (P : ℚ → Prop) (s : AggState) : Prop :=
  s.url_counters.map Prod.fst = s.url_req_times.map Prod.fst ∧
  (s.url_counters.map Prod.fst).Nodup ∧
  (∀ p ∈ s.url_counters, UrlInv P s.url_req_times p) ∧
  s.total_count = (s.url_counters.map (fun p => p.2.count)).sum ∧
  s.total_time_sum = (s.url_counters.map (fun p => p.2.time_sum)).sum

theorem initState_inv (P : ℚ → Prop) : StateInv P initState := by
  simp [StateInv, UrlInv, initState]

theorem updateUrl_eq {s : AggState} {url : String} {c : UrlCounter} {ts : List ℚ}
    (hc : dictGet s.url_counters url = some c)
    (hts : dictGet s.url_req_times url = some ts) (t : ℚ) :
    updateUrl s url t =
      .ok { total_count := s.total_count + 1,
            total_time_sum := s.total_time_sum + t,
            url_counters := dictSet s.url_counters url (bumpCounter c t),
            url_req_times := dictSet s.url_req_times url (ts ++ [t]) } := by
  simp only [updateUrl, hc, hts]

theorem step_core_inv (P : ℚ → Prop) {s : AggState} {url : String} {t : ℚ}
    {s' : AggState} (hP : P t) (hs : StateInv P s)
    (h : updateUrl (ensureUrl s url) url t = .ok s') : StateInv P s' := by
  obtain ⟨hkeys, hnodup, hurl, hcnt, hsum⟩ := hs
  rcases hc0 : dictGet s.url_counters url with _ | c
  · -- url not seen before: ensureUrl appends zeroed entries to both dicts
    have hnm : url ∉ s.url_counters.map Prod.fst := (dictGet_none_iff _ _).mp hc0
    have hfreshT : dictGet s.url_req_times url = none := by
      rw [dictGet_none_iff] at hc0 ⊢
      rwa [← hkeys]
    have hens : ensureUrl s url =
        { s with
          url_counters := s.url_counters ++ [(url, { count := 0, time_sum := 0, time_max := 0 })],
          url_req_times := s.url_req_times ++ [(url, [])] } := by
      rw [ensureUrl, if_pos (by rw [hc0]; rfl), dictSet_of_none _ hc0, dictSet_of_none _ hfreshT]
    rw [hens] at h
    have hcu : dictGet (s.url_counters ++ [(url, ({ count := 0, time_sum := 0, time_max := 0 } : UrlCounter))]) url
        = some { count := 0, time_sum := 0, time_max := 0 } := by
      rw [dictGet_append_none hc0]
      simp [dictGet]
    have htu : dictGet (s.url_req_times ++ [(url, ([] : List ℚ))]) url = some [] := by
      rw [dictGet_append_none hfreshT]
      simp [dictGet]
    rw [updateUrl_eq hcu htu] at h
    simp only [Except.ok.injEq] at h
    subst h
    refine ⟨?_, ?_, ?_, ?_, ?_⟩
    · show (dictSet (s.url_counters ++ [(url, _)]) url _).map Prod.fst
        = (dictSet (s.url_req_times ++ [(url, _)]) url _).map Prod.fst
      rw [dictSet_append_self hc0, dictSet_append_self hfreshT]
      simp [hkeys]
    · show ((dictSet (s.url_counters ++ [(url, _)]) url _).map Prod.fst).Nodup
      rw [dictSet_append_self hc0]
      rw [List.map_append]
      refine List.Nodup.append hnodup (by simp) ?_
      intro a ha hb
      simp at hb
      subst hb
      exact hnm ha
    · show ∀ p ∈ dictSet (s.url_counters ++ [(url, _)]) url _,
        UrlInv P (dictSet (s.url_req_times ++ [(url, _)]) url _) p
      rw [dictSet_append_self hc0, dictSet_append_self hfreshT]
      intro p hp
      rcases List.mem_append.mp hp with hp | hp
      · obtain ⟨tsp, htsp, htne, hcp, hsp, hPp, hmp⟩ := hurl p hp
        exact ⟨tsp, dictGet_append_left htsp _, htne, hcp, hsp, hPp, hmp⟩
      · simp only [List.mem_singleton] at hp
        subst hp
        refine ⟨[] ++ [t], ?_, by simp, by simp [bumpCounter], by simp [bumpCounter], ?_, ?_⟩
        · rw [dictGet_append_none hfreshT]
          simp [dictGet]
        · intro x hx
          simp at hx
          subst hx
          exact hP
        · intro h0
          have h0t : 0 ≤ t := h0 t (by simp)
          simp only [bumpCounter, List.nil_append, pyMax, List.foldl_nil]
          by_cases hlt : (0 : ℚ) < t
          · rw [if_pos hlt]
          · rw [if_neg hlt]
            exact (le_antisymm (not_lt.mp hlt) h0t).symm
    · show s.total_count + 1
        = ((dictSet (s.url_counters ++ [(url, _)]) url _).map (fun p => p.2.count)).sum
      rw [dictSet_append_self hc0]
      simp [bumpCounter, hcnt]
    · show s.total_time_sum + t
        = ((dictSet (s.url_counters ++ [(url, _)]) url _).map (fun p => p.2.time_sum)).sum
      rw [dictSet_append_self hc0]
      simp [bumpCounter, hsum]
  · -- url already present: ensureUrl is the identity
    obtain ⟨ts, hts0, htne, hcnt_c, hsum_c, hPts, hmax_c⟩ :=
      hurl (url, c) (dictGet_some_mem hc0)
    have hts : dictGet s.url_req_times url = some ts := hts0
    have hcc : c.count = ts.length := hcnt_c
    have hcs : c.time_sum = ts.sum := hsum_c
    have hcm : (∀ x ∈ ts, 0 ≤ x) → c.time_max = pyMax ts := hmax_c
    have hens : ensureUrl s url = s := by
      rw [ensureUrl, if_neg (by rw [hc0]; simp)]
    rw [hens] at h
    rw [updateUrl_eq hc0 hts] at h
    simp only [Except.ok.injEq] at h
    subst h
    obtain ⟨d1, d2, hd, hd1ne, hset⟩ := dictSet_decomp hc0 (bumpCounter c t)
    have hd2ne : ∀ p ∈ d2, p.1 ≠ url := by
      refine nodup_keys_right d1 d2 url c ?_
      rw [← hd]
      exact hnodup
    refine ⟨?_, ?_, ?_, ?_, ?_⟩
    · show (dictSet s.url_counters url _).map Prod.fst
        = (dictSet s.url_req_times url _).map Prod.fst
      rw [dictSet_keys_some _ hc0, dictSet_keys_some _ hts, hkeys]
    · show ((dictSet s.url_counters url _).map Prod.fst).Nodup
      rw [dictSet_keys_some _ hc0]
      exact hnodup
    · show ∀ p ∈ dictSet s.url_counters url (bumpCounter c t),
        UrlInv P (dictSet s.url_req_times url (ts ++ [t])) p
      rw [hset]
      intro p hp
      rcases List.mem_append.mp hp with hp1 | hp2
      · have hpmem : p ∈ s.url_counters := by
          rw [hd]
          exact List.mem_append_left _ hp1
        obtain ⟨tsp, htsp, htnep, hcp, hsp, hPp, hmp⟩ := hurl p hpmem
        refine ⟨tsp, ?_, htnep, hcp, hsp, hPp, hmp⟩
        rw [dictGet_dictSet_ne _ _ (hd1ne p hp1)]
        exact htsp
      · rcases List.mem_cons.mp hp2 with rfl | hp3
        · refine ⟨ts ++ [t], dictGet_dictSet_self _ _ _, by simp, ?_, ?_, ?_, ?_⟩
          · simp [bumpCounter, hcc]
          · simp [bumpCounter, hcs]
          · intro x hx
            rcases List.mem_append.mp hx with hx | hx
            · exact hPts x hx
            · simp at hx
              subst hx
              exact hP
          · intro h0
            have h0ts : ∀ x ∈ ts, 0 ≤ x := fun x hx => h0 x (List.mem_append_left _ hx)
            show (bumpCounter c t).time_max = pyMax (ts ++ [t])
            rw [pyMax_concat t htne, ← hcm h0ts]
            exact ite_lt_eq_max
        · have hpmem : p ∈ s.url_counters := by
            rw [hd]
            exact List.mem_append_right _ (List.mem_cons_of_mem _ hp3)
          obtain ⟨tsp, htsp, htnep, hcp, hsp, hPp, hmp⟩ := hurl p hpmem
          refine ⟨tsp, ?_, htnep, hcp, hsp, hPp, hmp⟩
          rw [dictGet_dictSet_ne _ _ (hd2ne p hp3)]
          exact htsp
    · show s.total_count + 1
        = ((dictSet s.url_counters url (bumpCounter c t)).map (fun p => p.2.count)).sum
      rw [hset]
      rw [hd] at hcnt
      simp only [List.map_append, List.map_cons, List.sum_append, List.sum_cons,
        bumpCounter] at hcnt ⊢
      omega
    · show s.total_time_sum + t
        = ((dictSet s.url_counters url (bumpCounter c t)).map (fun p => p.2.time_sum)).sum
      rw [hset]
      rw [hd] at hsum
      simp only [List.map_append, List.map_cons, List.sum_append, List.sum_cons,
        bumpCounter] at hsum ⊢
      linarith

theorem aggStep_inv (P : ℚ → Prop) {s s' : AggState} {e : LogEntry}
    (hP : P e.request_time) (hs : StateInv P s) (h : aggStep s e = .ok s') :
    StateInv P s' := by
  rw [aggStep] at h
  by_cases h3 : e.request.length = 3
  · rw [if_pos h3] at h
    cases h
    exact hs
  · rw [if_neg h3] at h
    rcases htk : (pySplit e.request ' ').take 2 with _ | ⟨m, tl⟩
    · rw [htk] at h
      cases h
    · rcases tl with _ | ⟨url, tl2⟩
      · rw [htk] at h
        cases h
      · rcases tl2 with _ | ⟨x, tl3⟩
        · rw [htk] at h
          exact step_core_inv P hP hs h
        · rw [htk] at h
          cases h

theorem aggLoop_inv (P : ℚ → Prop) :
    ∀ (entries : List LogEntry) {s s' : AggState},
      (∀ e ∈ entries, P e.request_time) → StateInv P s →
      aggLoop s entries = .ok s' → StateInv P s' := by
  intro entries
  induction entries with
  | nil =>
    intro s s' _ hs h
    cases h
    exact hs
  | cons e es ih =>
    intro s s' hall hs h
    rw [aggLoop] at h
    rcases hst : aggStep s e with msg | s1
    · rw [hst] at h
      cases h
    · rw [hst] at h
      exact ih (fun x hx => hall x (List.mem_cons_of_mem _ hx))
        (aggStep_inv P (hall e (List.mem_cons_self _ _)) hs hst) h

/-- Claim C4: after folding any finite sequence of accepted records with
non-negative `request_time`s, every URL's accumulator satisfies
`time_max = max(times)`, `time_sum = sum(times)`, `count = len(times)`,
and the global accumulator equals the sums of the per-URL counters
(exactly — arithmetic here is exact rational arithmetic). -/
theorem claim_C4_invariants :
    ∀ (entries : List LogEntry) (s : AggState),
      (∀ e ∈ entries, 0 ≤ e.request_time) → aggregate entries = .ok s →
      (∀ url c, dictGet s.url_counters url = some c →
        ∃ ts, dictGet s.url_req_times url = some ts ∧ ts ≠ [] ∧
          c.count = ts.length ∧ c.time_sum = ts.sum ∧ c.time_max = pyMax ts) ∧
      s.total_count = (s.url_counters.map (fun p => p.2.count)).sum ∧
      s.total_time_sum = (s.url_counters.map (fun p => p.2.time_sum)).sum := by
  intro entries s hnn hagg
  obtain ⟨hkeys, hnodup, hurl, hcnt, hsum⟩ :=
    aggLoop_inv (fun t => 0 ≤ t) entries hnn (initState_inv _) hagg
  refine ⟨?_, hcnt, hsum⟩
  intro url c hget
  obtain ⟨ts, hts, htne, hc, hsumc, hPts, hmaxc⟩ := hurl (url, c) (dictGet_some_mem hget)
  exact ⟨ts, hts, htne, hc, hsumc, hmaxc hPts⟩

/-- The aggregation result of one record `GET /a HTTP/1.1` with request
time `0.1`, used as the witness state for C4. -/
def c4State : AggState :=
  { total_count := 1, total_time_sum := 1/10,
    url_counters := [("/a", { count := 1, time_sum := 1/10, time_max := 1/10 })],
    url_req_times := [("/a", [1/10])] }

/-- Witness for C4 at one concrete record. -/
theorem claim_C4_witness :
    (∀ e ∈ [mkEntry "GET /a HTTP/1.1" (1/10)], 0 ≤ e.request_time) ∧
    aggregate [mkEntry "GET /a HTTP/1.1" (1/10)] = .ok c4State ∧
    c4State.total_count = (c4State.url_counters.map (fun p => p.2.count)).sum ∧
    c4State.total_time_sum = (c4State.url_counters.map (fun p => p.2.time_sum)).sum :=
  ⟨by decide, by decide,
   (claim_C4_invariants [mkEntry "GET /a HTTP/1.1" (1/10)] c4State (by decide) (by decide)).2.1,
   (claim_C4_invariants [mkEntry "GET /a HTTP/1.1" (1/10)] c4State (by decide) (by decide)).2.2⟩

/-- Claim C5 as amended: if the final global record count is 0 then no
URL key exists, so the table builder loops over nothing, produces the
empty table and performs no division.  (Division by zero is avoided in
that case only: see the counterexample for an input with a positive
count but zero total time.) -/
theorem claim_C5_zero_count_empty_table :
    ∀ (entries : List LogEntry) (s : AggState),
      aggregate entries = .ok s → s.total_count = 0 →
      s.url_counters = [] ∧ buildTable s = .ok [] := by
  intro entries s hagg h0
  obtain ⟨_, _, hurl, hcnt, _⟩ :=
    aggLoop_inv (fun _ => True) entries (fun _ _ => trivial) (initState_inv _) hagg
  have hempty : s.url_counters = [] := by
    rcases hc : s.url_counters with _ | ⟨p, rest⟩
    · rfl
    · exfalso
      obtain ⟨ts, _, htne, hpc, _⟩ := hurl p (by rw [hc]; exact List.mem_cons_self _ _)
      rw [hc] at hcnt
      rw [h0] at hcnt
      simp only [List.map_cons, List.sum_cons] at hcnt
      have hzero : p.2.count = 0 := by omega
      rw [hpc] at hzero
      exact htne (List.eq_nil_of_length_eq_zero hzero)
  refine ⟨hempty, ?_⟩
  rw [buildTable, hempty]
  rfl

/-- Witness for C5's amended theorem: the empty record sequence yields
the initial state (global count 0) and the empty table. -/
theorem claim_C5_witness :
    aggregate [] = Except.ok initState ∧ buildTable initState = .ok [] :=
  ⟨rfl, (claim_C5_zero_count_empty_table [] initState rfl rfl).2⟩

/-- Claim C1 as amended: the aggregation step skips a record exactly when
its `request` string has length 3 (e.g. the quoted dash `"-"` as
produced by the tokenizer); a record whose request has length ≠ 3 but
splits into fewer than 2 whitespace tokens is not skipped — the tuple
unpacking raises `ValueError`, aborting the run. -/
theorem claim_C1_skip_rule :
    (∀ (s : AggState) (e : LogEntry), e.request.length = 3 → aggStep s e = .ok s) ∧
    (∀ (s : AggState) (e : LogEntry), e.request.length ≠ 3 →
      (pySplit e.request ' ').length < 2 → aggStep s e = .error "ValueError") := by
  constructor
  · intro s e h
    rw [aggStep, if_pos h]
  · intro s e h3 hlen
    rw [aggStep, if_neg h3]
    have h0 : (pySplit e.request ' ').length ≠ 0 := by
      simp only [pySplit, List.length_map, ne_eq, List.length_eq_zero]
      exact splitOnChar_ne_nil ' ' e.request.data
    have h1 : (pySplit e.request ' ').length = 1 := by omega
    obtain ⟨a, ha⟩ := List.length_eq_one.mp h1
    rw [ha]
    rfl

/-- Witness for C1's amended theorem: the quoted dash (length 3) is
skipped; the quoted two-character token (length 4, one whitespace
token) raises. -/
theorem claim_C1_witness :
    aggStep initState (mkEntry "\"-\"" 0) = .ok initState ∧
    aggStep initState (mkEntry "\"ab\"" 0) = .error "ValueError" :=
  ⟨claim_C1_skip_rule.1 initState (mkEntry "\"-\"" 0) (by decide),
   claim_C1_skip_rule.2 initState (mkEntry "\"ab\"" 0) (by decide) (by decide)⟩

theorem buildRow_ok_url {s : AggState} {url : String} {c : UrlCounter} {row : ReportRow}
    (h : buildRow s url c = .ok row) : row.url = url := by
  rw [buildRow] at h
  split at h
  · cases h
  · split at h
    · cases h
    · split at h
      · cases h
      · split at h
        · cases h
        · cases h
          rfl

theorem buildRows_spec (s : AggState) :
    ∀ (l : List (String × UrlCounter)) (rows : List ReportRow),
      buildRows s l = .ok rows →
      rows.map (fun r => r.url) = l.map Prod.fst ∧ rows.length = l.length := by
  intro l
  induction l with
  | nil =>
    intro rows h
    cases h
    simp
  | cons p rest ih =>
    intro rows h
    obtain ⟨url, c⟩ := p
    rw [buildRows] at h
    rcases hr : buildRow s url c with e | row
    · rw [hr] at h
      cases h
    · rw [hr] at h
      rcases hrs : buildRows s rest with e | rows'
      · rw [hrs] at h
        cases h
      · rw [hrs] at h
        cases h
        obtain ⟨h1, h2⟩ := ih rows' hrs
        simp [buildRow_ok_url hr, h1, h2]

/-- Claim C9 as amended: `write_report` accepts its `report_size`
argument but never uses it, and the table is neither sorted nor
truncated — the rows are exactly the URLs in first-insertion order, one
row per URL, so the emitted report may contain more than `REPORT_SIZE`
rows. -/
theorem claim_C9_no_sort_no_truncation :
    (∀ (entries : List LogEntry) (n m : Nat), write_report entries n = write_report entries m) ∧
    (∀ (s : AggState) (rows : List ReportRow), buildTable s = .ok rows →
      rows.map (fun r => r.url) = s.url_counters.map Prod.fst ∧
      rows.length = s.url_counters.length) :=
  ⟨fun _ _ _ => rfl, fun s rows h => buildRows_spec s s.url_counters rows h⟩

/-- The aggregation result of one record `GET /c HTTP/1.1` with request
time `0.1`, used as the witness state for C9. -/
def c9State : AggState :=
  { total_count := 1, total_time_sum := 1/10,
    url_counters := [("/c", { count := 1, time_sum := 1/10, time_max := 1/10 })],
    url_req_times := [("/c", [1/10])] }

/-- The single table row built from `c9State`. -/
def c9Row : ReportRow :=
  { url := "/c", count := 1, count_perc := 100, time_avg := 1/10, time_max := 1/10,
    time_med := 1/10, time_perc := 100, time_sum := 1/10 }

/-- Witness for C9's amended theorem at concrete inputs. -/
theorem claim_C9_witness :
    write_report [mkEntry "GET /c HTTP/1.1" (1/10)] 0
      = write_report [mkEntry "GET /c HTTP/1.1" (1/10)] 999 ∧
    [c9Row].map (fun r => r.url) = c9State.url_counters.map Prod.fst ∧
    [c9Row].length = c9State.url_counters.length :=
  ⟨claim_C9_no_sort_no_truncation.1 [mkEntry "GET /c HTTP/1.1" (1/10)] 0 999,
   (claim_C9_no_sort_no_truncation.2 c9State [c9Row] (by decide)).1,
   (claim_C9_no_sort_no_truncation.2 c9State [c9Row] (by decide)).2⟩

/-! ### Log-file selection (`get_last_log_file`, lines 88-142) -/

/-- Python `name.replace(".gz", "")`: remove every (non-overlapping,
left-to-right) occurrence of `.gz`. -/
def removeGz : List Char → List Char
  | '.' :: 'g' :: 'z' :: rest => removeGz rest
  | c :: rest => c :: removeGz rest
  | [] => []

def pyReplaceGz (s : String) : String := ⟨removeGz s.data⟩

/-- Python `s[-8:]`: the last 8 characters (or the whole string when
shorter). -/
def last8 (s : String) : String := ⟨s.data.drop (s.data.length - 8)⟩

/-- Line 118: `log_file.replace(".gz", "")[-8:]`. -/
def extractDateRaw (name : String) : String := last8 (pyReplaceGz name)

/-- Line 119: `re.match("\d{8}", log_date)` on the (at most 8 character)
extracted text: it matches exactly when there are 8 digit characters. -/
def digits8 (s : String) : Bool := s.length == 8 && s.data.all Char.isDigit

def digitsToNat (cs : List Char) : Nat := cs.foldl (fun a c => a * 10 + (c.toNat - 48)) 0

def isLeapYear (y : Nat) : Bool := y % 4 == 0 && (y % 100 != 0 || y % 400 == 0)

def daysInMonth (y m : Nat) : Nat :=
  if m = 2 then (if isLeapYear y then 29 else 28)
  else if m = 4 ∨ m = 6 ∨ m = 9 ∨ m = 11 then 30
  else 31

/-- Python `datetime.strptime(s, "%Y%m%d")` on an 8-digit string,
represented as the number `yyyymmdd` (numeric order on valid dates
coincides with chronological order); `none` models the `ValueError`
raised on an invalid calendar date (year 0, month > 12, day out of
range for the month, with leap years). -/
def strptimeYmd (s : String) : Option Nat :=
  let y := digitsToNat (s.data.take 4)
  let m := digitsToNat ((s.data.drop 4).take 2)
  let d := digitsToNat ((s.data.drop 6).take 2)
  if 1 ≤ y ∧ 1 ≤ m ∧ m ≤ 12 ∧ 1 ≤ d ∧ d ≤ daysInMonth y m then some (y * 10000 + m * 100 + d)
  else none

/-- The embedded date of a candidate file name (0 when unparseable). -/
def dateOf (name : String) : Nat := (strptimeYmd (extractDateRaw name)).getD 0

/-- `datetime.min` (year 1, January 1), the initial `max_date`. -/
def datetimeMin : Nat := 10101

/-- Strip a literal from the front of a character list. -/
def dropLit : List Char → List Char → Option (List Char)
  | [], s => some s
  | _ :: _, [] => none
  | l :: ls, c :: cs => if c = l then dropLit ls cs else none

/-- The regex tail `(.gz)*$`: zero or more groups of one arbitrary
character followed by `g` then `z`. -/
def gzStar : List Char → Bool
  | [] => true
  | _ :: 'g' :: 'z' :: rest => gzStar rest
  | _ => false

/-- Line 100: `re.match("^nginx-access-ui.log-[\d]{8}(.gz)*$", name)`
(the dots are unescaped, so they match any character; `\d` is modelled
as an ASCII digit). -/
def matchesLogPattern (name : String) : Bool :=
  match dropLit "nginx-access-ui".data name.data with
  | none => false
  | some r1 =>
    match r1 with
    | [] => false
    | _ :: r2 =>
      match dropLit "log-".data r2 with
      | none => false
      | some r3 =>
        ((r3.take 8).length == 8) && (r3.take 8).all Char.isDigit && gzStar (r3.drop 8)

/-- The possible outcomes of `get_last_log_file`: `noFile` models
`return None`; `found` the returned `LogFile(file=..., date=...)`;
`raised` an uncaught `ValueError` from `strptime`. -/
inductive SelectOutcome where
  | noFile : SelectOutcome
  | found : String → Nat → SelectOutcome
  | raised : SelectOutcome
deriving DecidableEq

/-- The selection loop (lines 113-129): skip processed files; extract
the date text; on a non-digit date text log an error and return `None`;
otherwise the strictly-greater comparison keeps the first file with the
maximal date. -/
def selectLoop (processed : List String) : List String → Nat → Option String → SelectOutcome
  | [], _, none => .noFile
  | [], maxDate, some best => .found best maxDate
  | f :: rest, maxDate, best =>
    if f ∈ processed then selectLoop processed rest maxDate best
    else
      if digits8 (extractDateRaw f) then
        match strptimeYmd (extractDateRaw f) with
        | none => .raised
        | some d =>
          if maxDate < d then selectLoop processed rest d (some f)
          else selectLoop processed rest maxDate best
      else .noFile

/-- `get_last_log_file` over the directory listing: filter names by the
pattern, run the loop, then join the winner with the directory
(`os.path.join`). -/
def get_last_log_file (log_dir : String) (files processed : List String) : SelectOutcome :=
  match selectLoop processed (files.filter (fun f => matchesLogPattern f)) datetimeMin none with
  | .found f d => .found (log_dir ++ "/" ++ f) d
  | r => r

/-- The candidates the claim ranges over: names matching the convention
and not listed in the registry. -/
def eligibleFiles (files processed : List String) : List String :=
  (files.filter (fun f => matchesLogPattern f)).filter (fun f => decide (f ∉ processed))

/-- A candidate whose embedded date text is 8 digits and parses to a
valid calendar date later than `datetime.min`. -/
abbrev goodDate (f : String) : Prop :=
  digits8 (extractDateRaw f) = true ∧ (strptimeYmd (extractDateRaw f)).isSome = true ∧
    datetimeMin < dateOf f

theorem mem_eligible {files processed : List String} {f : String} :
    f ∈ eligibleFiles files processed ↔
      (f ∈ files ∧ matchesLogPattern f = true) ∧ f ∉ processed := by
  simp [eligibleFiles, List.mem_filter]
  tauto

theorem selectLoop_cons (processed : List String) (f : String) (rest : List String)
    (maxd : Nat) (best : Option String) :
    selectLoop processed (f :: rest) maxd best =
      if f ∈ processed then selectLoop processed rest maxd best
      else
        if digits8 (extractDateRaw f) then
          match strptimeYmd (extractDateRaw f) with
          | none => SelectOutcome.raised
          | some d =>
            if maxd < d then selectLoop processed rest d (some f)
            else selectLoop processed rest maxd best
        else SelectOutcome.noFile := by
  cases best <;> rfl

theorem selectLoop_all_le (processed : List String) :
    ∀ (fs : List String) (maxd : Nat) (best : Option String),
      (∀ f ∈ fs, f ∉ processed → goodDate f) →
      (∀ f ∈ fs, f ∉ processed → dateOf f ≤ maxd) →
      selectLoop processed fs maxd best =
        (match best with
         | none => SelectOutcome.noFile
         | some b => SelectOutcome.found b maxd) := by
  intro fs
  induction fs with
  | nil =>
    intro maxd best _ _
    cases best <;> rfl
  | cons f rest ih =>
    intro maxd best hgood hle
    rw [selectLoop_cons]
    by_cases hproc : f ∈ processed
    · rw [if_pos hproc]
      exact ih maxd best (fun g hg => hgood g (List.mem_cons_of_mem _ hg))
        (fun g hg => hle g (List.mem_cons_of_mem _ hg))
    · obtain ⟨hd8, hsome, _⟩ := hgood f (List.mem_cons_self _ _) hproc
      obtain ⟨d, hdval⟩ := Option.isSome_iff_exists.mp hsome
      have hdate : dateOf f = d := by simp [dateOf, hdval]
      have h1 : dateOf f ≤ maxd := hle f (List.mem_cons_self _ _) hproc
      rw [hdate] at h1
      rw [if_neg hproc, if_pos hd8, hdval]
      show (if maxd < d then selectLoop processed rest d (some f)
            else selectLoop processed rest maxd best) = _
      rw [if_neg (by omega)]
      exact ih maxd best (fun g hg => hgood g (List.mem_cons_of_mem _ hg))
        (fun g hg => hle g (List.mem_cons_of_mem _ hg))

theorem selectLoop_exists_gt (processed : List String) :
    ∀ (fs : List String) (maxd : Nat) (best : Option String),
      (∀ f ∈ fs, f ∉ processed → goodDate f) →
      (∃ f, f ∈ fs ∧ f ∉ processed ∧ maxd < dateOf f) →
      ∃ g, g ∈ fs ∧ g ∉ processed ∧ maxd < dateOf g ∧
        selectLoop processed fs maxd best = SelectOutcome.found g (dateOf g) ∧
        ∀ f ∈ fs, f ∉ processed → dateOf f ≤ dateOf g := by
  intro fs
  induction fs with
  | nil =>
    intro maxd best _ hex
    obtain ⟨f, hf, _⟩ := hex
    simp at hf
  | cons f rest ih =>
    intro maxd best hgood hex
    rw [selectLoop_cons]
    by_cases hproc : f ∈ processed
    · rw [if_pos hproc]
      obtain ⟨g0, hg0mem, hg0p, hg0gt⟩ := hex
      have hg0rest : g0 ∈ rest := by
        rcases List.mem_cons.mp hg0mem with rfl | hr
        · exact absurd hproc hg0p
        · exact hr
      obtain ⟨g, hgmem, hgp, hggt, heq, hbound⟩ :=
        ih maxd best (fun x hx => hgood x (List.mem_cons_of_mem _ hx))
          ⟨g0, hg0rest, hg0p, hg0gt⟩
      refine ⟨g, List.mem_cons_of_mem _ hgmem, hgp, hggt, heq, ?_⟩
      intro x hx hxp
      rcases List.mem_cons.mp hx with rfl | hx'
      · exact absurd hproc hxp
      · exact hbound x hx' hxp
    · rw [if_neg hproc]
      obtain ⟨hd8, hsome, _⟩ := hgood f (List.mem_cons_self _ _) hproc
      obtain ⟨d, hdval⟩ := Option.isSome_iff_exists.mp hsome
      have hdate : dateOf f = d := by simp [dateOf, hdval]
      rw [if_pos hd8, hdval]
      show ∃ g, g ∈ f :: rest ∧ g ∉ processed ∧ maxd < dateOf g ∧
        (if maxd < d then selectLoop processed rest d (some f)
         else selectLoop processed rest maxd best) = SelectOutcome.found g (dateOf g) ∧
        ∀ x ∈ f :: rest, x ∉ processed → dateOf x ≤ dateOf g
      by_cases hlt : maxd < d
      · rw [if_pos hlt]
        by_cases hall : ∀ x ∈ rest, x ∉ processed → dateOf x ≤ d
        · rw [selectLoop_all_le processed rest d (some f)
            (fun x hx => hgood x (List.mem_cons_of_mem _ hx)) hall]
          refine ⟨f, List.mem_cons_self _ _, hproc, by omega, by rw [hdate], ?_⟩
          intro x hx hxp
          rcases List.mem_cons.mp hx with rfl | hx'
          · exact le_refl _
          · rw [hdate]
            exact hall x hx' hxp
        · push_neg at hall
          obtain ⟨x, hx, hxp, hxgt⟩ := hall
          obtain ⟨g, hgmem, hgp, hggt, heq2, hbound⟩ :=
            ih d (some f) (fun y hy => hgood y (List.mem_cons_of_mem _ hy))
              ⟨x, hx, hxp, hxgt⟩
          refine ⟨g, List.mem_cons_of_mem _ hgmem, hgp, by omega, heq2, ?_⟩
          intro y hy hyp
          rcases List.mem_cons.mp hy with rfl | hy'
          · rw [hdate]
            exact hggt.le
          · exact hbound y hy' hyp
      · rw [if_neg hlt]
        obtain ⟨g0, hg0mem, hg0p, hg0gt⟩ := hex
        have hg0rest : g0 ∈ rest := by
          rcases List.mem_cons.mp hg0mem with rfl | hr
          · exfalso
            rw [hdate] at hg0gt
            exact hlt hg0gt
          · exact hr
        obtain ⟨g, hgmem, hgp, hggt, heq2, hbound⟩ :=
          ih maxd best (fun y hy => hgood y (List.mem_cons_of_mem _ hy))
            ⟨g0, hg0rest, hg0p, hg0gt⟩
        refine ⟨g, List.mem_cons_of_mem _ hgmem, hgp, hggt, heq2, ?_⟩
        intro y hy hyp
        rcases List.mem_cons.mp hy with rfl | hy'
        · rw [hdate]
          omega
        · exact hbound y hy' hyp

/-- Claim C8: among the filenames matching the naming convention and not
listed in the registry (all carrying a valid embedded `yyyymmdd` date),
`get_last_log_file` returns the file with the maximal embedded date,
joined with the log directory, together with that date. -/
theorem claim_C8_newest_unprocessed :
    ∀ (log_dir : String) (files processed : List String),
      (∀ f ∈ eligibleFiles files processed, goodDate f) →
      eligibleFiles files processed ≠ [] →
      ∃ f, f ∈ eligibleFiles files processed ∧
        get_last_log_file log_dir files processed
          = SelectOutcome.found (log_dir ++ "/" ++ f) (dateOf f) ∧
        ∀ g ∈ eligibleFiles files processed, dateOf g ≤ dateOf f := by
  intro dir files processed hgood hne
  have hgood' : ∀ f ∈ files.filter (fun f => matchesLogPattern f),
      f ∉ processed → goodDate f := by
    intro f hf hfp
    refine hgood f ?_
    rw [eligibleFiles, List.mem_filter]
    exact ⟨hf, by simpa using hfp⟩
  obtain ⟨f0, hf0⟩ := List.exists_mem_of_ne_nil _ hne
  have hf0' := (mem_eligible.mp hf0)
  have hf0filter : f0 ∈ files.filter (fun f => matchesLogPattern f) :=
    List.mem_filter.mpr hf0'.1
  obtain ⟨g, hgmem, hgp, _, heq, hbound⟩ :=
    selectLoop_exists_gt processed (files.filter (fun f => matchesLogPattern f))
      datetimeMin none hgood' ⟨f0, hf0filter, hf0'.2, (hgood f0 hf0).2.2⟩
  refine ⟨g, ?_, ?_, ?_⟩
  · rw [eligibleFiles, List.mem_filter]
    exact ⟨hgmem, by simpa using hgp⟩
  · simp only [get_last_log_file, heq]
  · intro g' hg'
    have hg'2 := mem_eligible.mp hg'
    exact hbound g' (List.mem_filter.mpr hg'2.1) hg'2.2

/-- The three candidate files of the repository's
`test_get_last_log_file_found`. -/
def logFiles38 : List String :=
  ["nginx-access-ui.log-20230301", "nginx-access-ui.log-20230302.gz",
   "nginx-access-ui.log-20230303.gz"]

/-- Witness for C8: with the three candidates dated 2023-03-01,
2023-03-02 (.gz), 2023-03-03 (.gz) and an empty registry, the selector
returns the 2023-03-03 `.gz` file with date 20230303. -/
theorem claim_C8_witness :
    get_last_log_file "mock_log_dir" logFiles38 []
      = SelectOutcome.found "mock_log_dir/nginx-access-ui.log-20230303.gz" 20230303 := by
  obtain ⟨f, hf, heq, hmax⟩ :=
    claim_C8_newest_unprocessed "mock_log_dir" logFiles38 [] (by decide) (by decide)
  have helig : eligibleFiles logFiles38 [] = logFiles38 := by decide
  rw [helig] at hf hmax
  have h3 := hmax "nginx-access-ui.log-20230303.gz" (by decide)
  simp only [logFiles38, List.mem_cons, List.not_mem_nil, or_false] at hf
  rcases hf with rfl | rfl | rfl
  · exact absurd h3 (by decide)
  · exact absurd h3 (by decide)
  · exact heq.trans (by decide)

end LogAnalyzer
